import Mathlib

/-!
Verification of `pkg/kncloudevents/message_receiver.go`.

A shallow embedding of the HTTP message receiver of Knative Eventing:

* `formatSpanName` and the `strings.Split` it is built on;
* the shutdown-timeout context value (`DefaultShutdownTimeout`, `getShutdownTimeout`,
  `WithShutdownTimeout`) over a model of `context.Context` value chains;
* `HttpMessageReceiver.StartListen` as a transition system: the coordinator, the serving
  goroutine and the environment (the caller cancelling the context, `Serve` and `Shutdown`
  returning) are interleaved by a schedule of atomic actions.

Go strings are modelled by Lean strings, `time.Duration` (an `int64` count of nanoseconds, on
which the code performs no arithmetic) by `Int`, and a Go `error` by `Option GoError`, `none`
being `nil`.
-/

namespace Kncloudevents

/-! Strings. -/

/-- Go `strings.IndexByte`: position of the first occurrence of `c` in `s`, if any. -/
def IndexByte : List Char → Char → Option Nat
  | [], _ => none
  | x :: xs, c => if x = c then some 0 else (IndexByte xs c).map (· + 1)

/-- Go `strings.Count` for a one-byte separator. -/
def Count (s : List Char) (c : Char) : Nat := s.count c

/-- Loop of Go `strings.genSplit` (with `sepSave = 0` and a one-byte separator): at most `n`
cuts are made, each at the first remaining occurrence of `sep`; the rest of the string is the
last piece. -/
def genSplit (sep : Char) : Nat → List Char → List (List Char)
  | 0, s => [s]
  | n + 1, s =>
    match IndexByte s sep with
    | none => [s]
    | some m => s.take m :: genSplit sep n (s.drop (m + 1))

/-- Go `strings.Split(s, sep)` for a one-byte separator: `genSplit` with `Count(s, sep)` cuts,
that is `Count(s, sep) + 1` pieces. -/
def Split (s : String) (sep : Char) : List String :=
  (genSplit sep (Count s.data sep) s.data).map String.mk

/-- Source `formatSpanName`, applied to `request.URL.Path`. -/
def formatSpanName (path : String) : String :=
  let pieces := Split path '/'
  if pieces.length ≠ 3 then ""
  else "broker:" ++ pieces.getD 1 "" ++ "." ++ pieces.getD 2 ""

/-- The shape `/<ns>/<broker>` in the words of the specification: a leading slash followed by
exactly two non-empty segments separated by one slash. -/
def isNsBrokerPath (path : String) : Bool :=
  match path.data with
  | '/' :: rest =>
    match rest.dropWhile (· ≠ '/') with
    | '/' :: b => !(rest.takeWhile (· ≠ '/')).isEmpty && !b.isEmpty && !b.contains '/'
    | _ => false
  | _ => false

/-! Shutdown timeout carried by the context. -/

/-- Go `time.Duration`: nanoseconds. -/
abbrev Duration := Int

/-- Go `time.Nanosecond`. -/
def Nanosecond : Duration := 1
/-- Go `time.Microsecond`. -/
def Microsecond : Duration := 1000 * Nanosecond
/-- Go `time.Millisecond`. -/
def Millisecond : Duration := 1000 * Microsecond
/-- Go `time.Second`. -/
def Second : Duration := 1000 * Millisecond
/-- Go `time.Minute`. -/
def Minute : Duration := 60 * Second

/-- Source constant `DefaultShutdownTimeout = time.Minute * 1`. -/
def DefaultShutdownTimeout : Duration := Minute * 1

/-- Context keys. `shutdownTimeoutKey` is the value `shutdownTimeoutKey{}` of the unexported
source type; every other key is a value of some other type. -/
inductive Key where
  | shutdownTimeoutKey
  | other (name : String)
  deriving DecidableEq, Repr

/-- Go `any` values stored in a context: `nil`, a `time.Duration`, or a value of another
dynamic type. -/
inductive Any where
  | nil
  | duration (d : Duration)
  | other (repr : String)
  deriving DecidableEq, Repr

/-- Go `context.Context` as the chain of derivations from `context.Background()`. -/
inductive Context where
  | background
  | withValue (parent : Context) (key : Key) (val : Any)
  | withCancel (parent : Context)
  | withTimeout (parent : Context) (timeout : Duration)
  deriving DecidableEq, Repr

/-- Go `ctx.Value(key)`: the value of the innermost `WithValue` for `key`, `nil` if none. -/
def Context.Value : Context → Key → Any
  | .background, _ => .nil
  | .withValue parent k v, key => if k = key then v else parent.Value key
  | .withCancel parent, key => parent.Value key
  | .withTimeout parent _, key => parent.Value key

/-- Source `getShutdownTimeout`. The type assertion `v.(time.Duration)` panics on a value of
another type: `none`. -/
def getShutdownTimeout (ctx : Context) : Option Duration :=
  match ctx.Value .shutdownTimeoutKey with
  | .nil => some DefaultShutdownTimeout
  | .duration d => some d
  | .other _ => none

/-- Source `WithShutdownTimeout`. -/
def WithShutdownTimeout (ctx : Context) (timeout : Duration) : Context :=
  .withValue ctx .shutdownTimeoutKey (.duration timeout)

/-- Whether some derivation step of the context attaches a value under `shutdownTimeoutKey`. -/
def Context.attachesShutdownTimeout : Context → Bool
  | .background => false
  | .withValue parent k _ => k == .shutdownTimeoutKey || parent.attachesShutdownTimeout
  | .withCancel parent => parent.attachesShutdownTimeout
  | .withTimeout parent _ => parent.attachesShutdownTimeout

/-! The receiver. -/

/-- A non-nil Go `error`. -/
structure GoError where
  msg : String
  deriving DecidableEq, Repr

/-- Go `error`: `none` is `nil`. -/
abbrev Err := Option GoError

/-- The caller's `nethttp.Handler`. -/
structure UserHandler where
  id : Nat
  deriving DecidableEq, Repr

/-- Trace propagation formats used by the source. -/
inductive Propagation where
  | TraceContextEgress
  deriving DecidableEq, Repr

/-- Go `ochttp.Handler`, with the fields the source sets. -/
structure OchttpHandler where
  Propagation : Propagation
  Handler : UserHandler
  FormatSpanName : String → String

/-- Source `CreateHandler`. -/
def CreateHandler (handler : UserHandler) : OchttpHandler :=
  { Propagation := .TraceContextEgress
    Handler := handler
    FormatSpanName := formatSpanName }

/-- Go `net.Listener`, identified by its address. -/
structure Listener where
  Addr : String
  deriving DecidableEq, Repr

/-- Go `nethttp.Server`, with the fields the source sets. -/
structure Server where
  Addr : String
  Handler : OchttpHandler

/-- Source `HttpMessageReceiver`; a nil field is `none`. -/
structure HttpMessageReceiver where
  port : Int
  handler : Option OchttpHandler
  server : Option Server
  listener : Option Listener

/-- Source `NewHttpMessageReceiver`. -/
def NewHttpMessageReceiver (port : Int) : HttpMessageReceiver :=
  { port := port, handler := none, server := none, listener := none }

/-- The address `fmt.Sprintf(":%d", recv.port)` passed to `net.Listen`. -/
def listenAddress (port : Int) : String := ":" ++ toString port

/-- The two cases of the `select` in `StartListen`, also used to name the two signals they wait
for: `ctxDone` is `<-ctx.Done()`, `errChan` is `<-errChan`. -/
inductive Branch where
  | ctxDone
  | errChan
  deriving DecidableEq, Repr

/-- The goroutine `go func() { errChan <- recv.server.Serve(recv.listener) }()`. -/
inductive Goroutine where
  | notStarted
  | serving
  | sending (e : Err)
  | exited (e : Err)
  deriving DecidableEq, Repr

/-- Where the coordinator stands in `StartListen`; the name is the statement about to run.
`blocked` is the `select` with no case ready, `ret err` a `return err` about to run,
`returned err` the call having returned `err`, `panicked` the failed type assertion of
`getShutdownTimeout`. -/
inductive Pc where
  | listen
  | createHandler
  | newServer
  | makeChan
  | goServe
  | select
  | blocked
  | shutdown
  | inShutdown
  | drain (err : Err)
  | ret (err : Err)
  | returned (err : Err)
  | panicked
  deriving DecidableEq, Repr

/-- State of one call of `StartListen`. Besides the receiver, the coordinator, the channel
(`errChan`: its buffer, `none` before `make`), the goroutine and the cancellation of the
caller's context (`ctxDone`), it records what happened: the addresses passed to `net.Listen`,
the contexts passed to `Shutdown` and its result, the values the coordinator received from
`errChan`, the `select` cases taken, the signals (cancellation, result sent) in the order they
occurred, and whether the coordinator blocked in the `select`. -/
structure State where
  recv : HttpMessageReceiver
  pc : Pc
  ctxDone : Bool
  listenCalls : List String
  errChan : Option (List Err)
  goroutine : Goroutine
  shutdownCalls : List Context
  shutdownResult : Option Err
  received : List Err
  branches : List Branch
  signals : List Branch
  parked : Bool

/-- State on entry of `recv.StartListen`. -/
def State.init (recv : HttpMessageReceiver) : State :=
  { recv := recv, pc := .listen, ctxDone := false, listenCalls := [], errChan := none,
    goroutine := .notStarted, shutdownCalls := [], shutdownResult := none, received := [],
    branches := [], signals := [], parked := false }

/-- Atomic steps. Of the coordinator: `listenOk`/`listenErr` (`net.Listen` returning a listener
or an error), `createHandler`, `newServer`, `makeChan`, `goServe`, `selectDone`/`selectErr`
(the `select` finding that case ready and taking it), `selectBlock` (no case ready),
`callShutdown`, `shutdownReturns` (`Shutdown` returning), `drain` (`<-errChan`), `ret`.
Of the goroutine: `serveReturns` (`Serve` returning), `send`. Of the caller: `cancel`. -/
inductive Action where
  | listenOk (l : Listener)
  | listenErr (e : GoError)
  | createHandler
  | newServer
  | makeChan
  | goServe
  | cancel
  | serveReturns (e : Err)
  | send
  | selectDone
  | selectErr
  | selectBlock
  | callShutdown
  | shutdownReturns (r : Err)
  | drain
  | ret
  deriving DecidableEq, Repr

/-- One atomic step of `recv.StartListen(ctx, handler)`; `none` when the action is not enabled.

A `select` with several ready cases takes any of them (`selectDone` and `selectErr` are then
both enabled); with none ready the coordinator blocks, and the first signal to occur wakes it
with its case: `cancel` and `send` then move the coordinator themselves, `send` handing the
value over without buffering it. `errChan` has capacity 1, `send` needs the buffer empty. -/
def step (ctx : Context) (handler : UserHandler) (s : State) : Action → Option State
  | .listenOk l =>
    match s.pc with
    | .listen =>
      some { s with pc := .createHandler, recv := { s.recv with listener := some l },
                    listenCalls := s.listenCalls ++ [listenAddress s.recv.port] }
    | _ => none
  | .listenErr e =>
    match s.pc with
    | .listen =>
      some { s with pc := .ret (some e), recv := { s.recv with listener := none },
                    listenCalls := s.listenCalls ++ [listenAddress s.recv.port] }
    | _ => none
  | .createHandler =>
    match s.pc with
    | .createHandler =>
      some { s with pc := .newServer,
                    recv := { s.recv with handler := some (CreateHandler handler) } }
    | _ => none
  | .newServer =>
    match s.pc, s.recv.listener, s.recv.handler with
    | .newServer, some l, some h =>
      some { s with pc := .makeChan,
                    recv := { s.recv with server := some { Addr := l.Addr, Handler := h } } }
    | _, _, _ => none
  | .makeChan =>
    match s.pc with
    | .makeChan => some { s with pc := .goServe, errChan := some [] }
    | _ => none
  | .goServe =>
    match s.pc with
    | .goServe => some { s with pc := .select, goroutine := .serving }
    | _ => none
  | .cancel =>
    if s.ctxDone then none
    else
      match s.pc with
      | .blocked =>
        some { s with ctxDone := true, signals := s.signals ++ [.ctxDone], pc := .shutdown,
                      branches := s.branches ++ [.ctxDone] }
      | _ => some { s with ctxDone := true, signals := s.signals ++ [.ctxDone] }
  | .serveReturns e =>
    match s.goroutine with
    | .serving => some { s with goroutine := .sending e }
    | _ => none
  | .send =>
    match s.goroutine, s.errChan, s.pc with
    | .sending e, some [], .blocked =>
      some { s with goroutine := .exited e, signals := s.signals ++ [.errChan], pc := .ret e,
                    received := s.received ++ [e], branches := s.branches ++ [.errChan] }
    | .sending e, some [], _ =>
      some { s with goroutine := .exited e, signals := s.signals ++ [.errChan],
                    errChan := some [e] }
    | _, _, _ => none
  | .selectDone =>
    match s.pc, s.ctxDone with
    | .select, true => some { s with pc := .shutdown, branches := s.branches ++ [.ctxDone] }
    | _, _ => none
  | .selectErr =>
    match s.pc, s.errChan with
    | .select, some (e :: rest) =>
      some { s with pc := .ret e, errChan := some rest, received := s.received ++ [e],
                    branches := s.branches ++ [.errChan] }
    | _, _ => none
  | .selectBlock =>
    match s.pc, s.ctxDone, s.errChan with
    | .select, false, some [] => some { s with pc := .blocked, parked := true }
    | _, _, _ => none
  | .callShutdown =>
    match s.pc, getShutdownTimeout ctx with
    | .shutdown, some d =>
      some { s with pc := .inShutdown,
                    shutdownCalls := s.shutdownCalls ++ [.withTimeout .background d] }
    | .shutdown, none => some { s with pc := .panicked }
    | _, _ => none
  | .shutdownReturns r =>
    match s.pc with
    | .inShutdown => some { s with pc := .drain r, shutdownResult := some r }
    | _ => none
  | .drain =>
    match s.pc, s.errChan with
    | .drain r, some (e :: rest) =>
      some { s with pc := .ret r, errChan := some rest, received := s.received ++ [e] }
    | _, _ => none
  | .ret =>
    match s.pc with
    | .ret r => some { s with pc := .returned r }
    | _ => none

/-- Runs a schedule of actions from a state; `none` if one of them is not enabled. -/
def exec (ctx : Context) (handler : UserHandler) : State → List Action → Option State
  | s, [] => some s
  | s, a :: as =>
    match step ctx handler s a with
    | none => none
    | some s' => exec ctx handler s' as

/-- Source `HttpMessageReceiver.StartListen`, run under a schedule. -/
def StartListen (recv : HttpMessageReceiver) (ctx : Context) (handler : UserHandler)
    (schedule : List Action) : Option State :=
  exec ctx handler (State.init recv) schedule

/-! Invariant of the transition system. -/

/-- The context is done exactly when its cancellation is among the signals. -/
def sigOk (s : State) : Prop :=
  s.ctxDone = true ↔ Branch.ctxDone ∈ s.signals

/-- The goroutine runs and, as long as the coordinator has received nothing, its result is in
the buffer of `errChan` exactly when it has exited. -/
def chanOk (s : State) : Prop :=
  match s.goroutine with
  | .notStarted => False
  | .serving => s.errChan = some [] ∧ Branch.errChan ∉ s.signals
  | .sending _ => s.errChan = some [] ∧ Branch.errChan ∉ s.signals
  | .exited e => s.errChan = some [e] ∧ Branch.errChan ∈ s.signals

/-- Nothing of the serving phase has happened. -/
def noServe (s : State) : Prop :=
  s.goroutine = .notStarted ∧ s.received = [] ∧ s.branches = [] ∧ s.parked = false ∧
  s.shutdownCalls = [] ∧ s.shutdownResult = none ∧ Branch.errChan ∉ s.signals

/-- The receiver and the calls of `net.Listen` after a successful bind, with `h` and `srv`
telling whether the handler and the server are set. -/
def recvOk (recv0 : HttpMessageReceiver) (handler : UserHandler) (h srv : Bool)
    (recv : HttpMessageReceiver) (listenCalls : List String) : Prop :=
  ∃ l : Listener,
    recv =
      { port := recv0.port
        handler := if h then some (CreateHandler handler) else recv0.handler
        server :=
          if srv then some { Addr := l.Addr, Handler := CreateHandler handler }
          else recv0.server
        listener := some l } ∧
    listenCalls = [listenAddress recv0.port]

/-- Listener, handler and server are all set. -/
def resourcesUp (recv0 : HttpMessageReceiver) (handler : UserHandler) (s : State) : Prop :=
  recvOk recv0 handler true true s.recv s.listenCalls

/-- A coordinator that blocked in the `select` was woken by the first signal. -/
def parkOk (s : State) (b : Branch) : Prop :=
  s.parked = true → s.signals.head? = some b

/-- The cancellation case has been taken and `errChan` not yet drained. -/
def waitingOk (recv0 : HttpMessageReceiver) (handler : UserHandler) (s : State) : Prop :=
  resourcesUp recv0 handler s ∧ chanOk s ∧ s.received = [] ∧ s.branches = [.ctxDone] ∧
  s.ctxDone = true ∧ parkOk s .ctxDone

/-- The three ways of reaching a `return`: after a failed `net.Listen`, after `Shutdown` and
the draining of `errChan`, and with the result of `Serve`. -/
def finishedOk (recv0 : HttpMessageReceiver) (handler : UserHandler) (ctx : Context)
    (s : State) (r : Err) : Prop :=
  (s.branches = [] ∧ noServe s ∧ (∃ e, r = some e) ∧
    s.recv = { recv0 with listener := none } ∧
    s.listenCalls = [listenAddress recv0.port] ∧ s.errChan = none) ∨
  (s.branches = [.ctxDone] ∧ resourcesUp recv0 handler s ∧ s.ctxDone = true ∧
    parkOk s .ctxDone ∧
    (∃ d, getShutdownTimeout ctx = some d ∧
      s.shutdownCalls = [Context.withTimeout .background d]) ∧
    s.shutdownResult = some r ∧
    ∃ e, s.goroutine = .exited e ∧ s.received = [e] ∧ s.errChan = some [] ∧
      Branch.errChan ∈ s.signals) ∨
  (s.branches = [.errChan] ∧ resourcesUp recv0 handler s ∧ parkOk s .errChan ∧
    Branch.errChan ∈ s.signals ∧ s.shutdownCalls = [] ∧ s.shutdownResult = none ∧
    s.goroutine = .exited r ∧ s.received = [r] ∧ s.errChan = some [])

/-- Invariant of `recv0.StartListen(ctx, handler)`, by position of the coordinator. -/
def Inv (recv0 : HttpMessageReceiver) (ctx : Context) (handler : UserHandler) (s : State) :
    Prop :=
  sigOk s ∧
  match s.pc with
  | .listen => noServe s ∧ s.recv = recv0 ∧ s.listenCalls = [] ∧ s.errChan = none
  | .createHandler => noServe s ∧ recvOk recv0 handler false false s.recv s.listenCalls ∧ s.errChan = none
  | .newServer => noServe s ∧ recvOk recv0 handler true false s.recv s.listenCalls ∧ s.errChan = none
  | .makeChan => noServe s ∧ resourcesUp recv0 handler s ∧ s.errChan = none
  | .goServe => noServe s ∧ resourcesUp recv0 handler s ∧ s.errChan = some []
  | .select =>
    resourcesUp recv0 handler s ∧ chanOk s ∧ s.received = [] ∧ s.branches = [] ∧
      s.parked = false ∧ s.shutdownCalls = [] ∧ s.shutdownResult = none
  | .blocked =>
    resourcesUp recv0 handler s ∧ chanOk s ∧ s.received = [] ∧ s.branches = [] ∧
      s.parked = true ∧ s.shutdownCalls = [] ∧ s.shutdownResult = none ∧ s.signals = []
  | .shutdown => waitingOk recv0 handler s ∧ s.shutdownCalls = [] ∧ s.shutdownResult = none
  | .panicked =>
    waitingOk recv0 handler s ∧ s.shutdownCalls = [] ∧ s.shutdownResult = none ∧
      getShutdownTimeout ctx = none
  | .inShutdown =>
    waitingOk recv0 handler s ∧ s.shutdownResult = none ∧
      ∃ d, getShutdownTimeout ctx = some d ∧
        s.shutdownCalls = [Context.withTimeout .background d]
  | .drain r =>
    waitingOk recv0 handler s ∧ s.shutdownResult = some r ∧
      ∃ d, getShutdownTimeout ctx = some d ∧
        s.shutdownCalls = [Context.withTimeout .background d]
  | .ret r => finishedOk recv0 handler ctx s r
  | .returned r => finishedOk recv0 handler ctx s r

/-- The bind failed with `e`: the coordinator is at, or past, `return err` with that error and
the goroutine was never started. -/
def bindFailed (e : GoError) (s : State) : Prop :=
  (s.pc = .ret (some e) ∨ s.pc = .returned (some e)) ∧ s.goroutine = .notStarted

/-- Steps the goroutine still needs before its result is in `errChan`. -/
def gRank : Goroutine → Nat
  | .exited _ => 0
  | .sending _ => 1
  | .serving => 2
  | .notStarted => 3

/-- A bound on the number of steps to the return of `StartListen`. -/
def rank (s : State) : Nat :=
  match s.pc with
  | .returned _ => 0
  | .panicked => 0
  | .ret _ => 1
  | .blocked => 1 + gRank s.goroutine
  | .select => 2 + gRank s.goroutine
  | .drain _ => 2 + gRank s.goroutine
  | .inShutdown => 3 + gRank s.goroutine
  | .shutdown => 4 + gRank s.goroutine
  | .goServe => 5
  | .makeChan => 6
  | .newServer => 7
  | .createHandler => 8
  | .listen => 9

/-! Example runs. -/

/-- Go `http.ErrServerClosed`, returned by `Serve` after `Shutdown`. -/
def ErrServerClosed : GoError := ⟨"http: Server closed"⟩

/-- An error of `net.Listen`. -/
def errAddrInUse : GoError := ⟨"listen tcp :8080: bind: address already in use"⟩

/-- An error of `Serve` that no `Shutdown` caused. -/
def errAccept : GoError := ⟨"accept tcp [::]:8080: use of closed network connection"⟩

/-- The receiver `NewHttpMessageReceiver(8080)`. -/
def exampleRecv : HttpMessageReceiver := NewHttpMessageReceiver 8080

/-- The listener `net.Listen` returns in the example runs. -/
def exampleListener : Listener := ⟨"[::]:8080"⟩

/-- The caller's handler in the example runs. -/
def exampleHandler : UserHandler := ⟨0⟩

/-- The receiver of the example runs once serving. -/
def servingRecv : HttpMessageReceiver :=
  { port := 8080
    handler := some (CreateHandler exampleHandler)
    server := some { Addr := "[::]:8080", Handler := CreateHandler exampleHandler }
    listener := some exampleListener }

/-- Bind, handler, server, channel, goroutine. -/
def startup : List Action :=
  [.listenOk exampleListener, .createHandler, .newServer, .makeChan, .goServe]

/-- The coordinator blocks, the context is cancelled, `Shutdown` makes `Serve` return
`ErrServerClosed` and returns nil itself. -/
def cancelSchedule : List Action :=
  startup ++ [.selectBlock, .cancel, .callShutdown, .serveReturns (some ErrServerClosed), .send,
    .shutdownReturns none, .drain, .ret]

/-- End of `cancelSchedule` when the shutdown timeout resolves to `d`. -/
def cancelFinal (d : Duration) : State :=
  { recv := servingRecv, pc := .returned none, ctxDone := true,
    listenCalls := [listenAddress 8080], errChan := some [],
    goroutine := .exited (some ErrServerClosed),
    shutdownCalls := [.withTimeout .background d], shutdownResult := some none,
    received := [some ErrServerClosed], branches := [.ctxDone],
    signals := [.ctxDone, .errChan], parked := true }

/-- The coordinator blocks and `Serve` fails on its own. -/
def serveFailSchedule : List Action :=
  startup ++ [.selectBlock, .serveReturns (some errAccept), .send, .ret]

/-- End of `serveFailSchedule`. -/
def serveFailFinal : State :=
  { recv := servingRecv, pc := .returned (some errAccept), ctxDone := false,
    listenCalls := [listenAddress 8080], errChan := some [],
    goroutine := .exited (some errAccept), shutdownCalls := [], shutdownResult := none,
    received := [some errAccept], branches := [.errChan], signals := [.errChan],
    parked := true }

/-- The context is already cancelled and `net.Listen` fails. -/
def bindFailSchedule : List Action :=
  [.cancel, .listenErr errAddrInUse, .ret]

/-- End of `bindFailSchedule`. -/
def bindFailFinal : State :=
  { recv := exampleRecv, pc := .returned (some errAddrInUse), ctxDone := true,
    listenCalls := [listenAddress 8080], errChan := none, goroutine := .notStarted,
    shutdownCalls := [], shutdownResult := none, received := [], branches := [],
    signals := [.ctxDone], parked := false }

/-- The run `bindFailSchedule` before its last step: the coordinator is at `return err`. -/
def bindFailPending : State :=
  { recv := exampleRecv, pc := .ret (some errAddrInUse), ctxDone := true,
    listenCalls := [listenAddress 8080], errChan := none, goroutine := .notStarted,
    shutdownCalls := [], shutdownResult := none, received := [], branches := [],
    signals := [.ctxDone], parked := false }

/-- The context is cancelled, then `Serve` fails, and only then the coordinator reaches the
`select`, which takes the `errChan` case. -/
def raceCancelFirst : List Action :=
  startup ++ [.cancel, .serveReturns (some errAccept), .send, .selectErr, .ret]

/-- End of `raceCancelFirst`. -/
def raceCancelFirstFinal : State :=
  { recv := servingRecv, pc := .returned (some errAccept), ctxDone := true,
    listenCalls := [listenAddress 8080], errChan := some [],
    goroutine := .exited (some errAccept), shutdownCalls := [], shutdownResult := none,
    received := [some errAccept], branches := [.errChan], signals := [.ctxDone, .errChan],
    parked := false }

/-- `Serve` fails, then the context is cancelled, and only then the coordinator reaches the
`select`, which takes the `ctx.Done()` case. -/
def raceServeFirst : List Action :=
  startup ++ [.serveReturns (some errAccept), .send, .cancel, .selectDone, .callShutdown,
    .shutdownReturns none, .drain, .ret]

/-- End of `raceServeFirst` under the default shutdown timeout. -/
def raceServeFirstFinal : State :=
  { recv := servingRecv, pc := .returned none, ctxDone := true,
    listenCalls := [listenAddress 8080], errChan := some [],
    goroutine := .exited (some errAccept),
    shutdownCalls := [.withTimeout .background DefaultShutdownTimeout],
    shutdownResult := some none, received := [some errAccept], branches := [.ctxDone],
    signals := [.errChan, .ctxDone], parked := false }

/-! Facts about `Split` and `formatSpanName`. -/

theorem IndexByte_eq_none {s : List Char} {c : Char} (h : IndexByte s c = none) : c ∉ s := by
  induction s with
  | nil => simp
  | cons x xs ih =>
    unfold IndexByte at h
    split at h
    · simp at h
    · rename_i hx
      simp only [Option.map_eq_none'] at h
      simp only [List.mem_cons, not_or]
      exact ⟨fun e => hx e.symm, ih h⟩

theorem IndexByte_eq_some {s : List Char} {c : Char} {m : Nat} (h : IndexByte s c = some m) :
    s = s.take m ++ c :: s.drop (m + 1) ∧ c ∉ s.take m := by
  induction s generalizing m with
  | nil => simp [IndexByte] at h
  | cons x xs ih =>
    unfold IndexByte at h
    split at h
    · rename_i hx
      simp only [Option.some.injEq] at h
      subst h; subst hx
      simp
    · rename_i hx
      simp only [Option.map_eq_some'] at h
      obtain ⟨k, hk, rfl⟩ := h
      obtain ⟨h1, h2⟩ := ih hk
      refine ⟨?_, ?_⟩
      · simp only [List.take_succ_cons, List.drop_succ_cons, List.cons_append, List.cons.injEq,
          true_and]
        exact h1
      · simp only [List.take_succ_cons, List.mem_cons, not_or]
        exact ⟨fun e => hx e.symm, h2⟩

theorem Count_drop_of_IndexByte {s : List Char} {c : Char} {m : Nat}
    (h : IndexByte s c = some m) : Count s c = Count (s.drop (m + 1)) c + 1 := by
  obtain ⟨h1, h2⟩ := IndexByte_eq_some h
  unfold Count
  conv_lhs => rw [h1]
  rw [List.count_append, List.count_cons_self, List.count_eq_zero_of_not_mem h2]
  omega

theorem genSplit_length (sep : Char) (k : Nat) (s : List Char) (h : Count s sep = k) :
    (genSplit sep k s).length = k + 1 := by
  induction k generalizing s with
  | zero => simp [genSplit]
  | succ k ih =>
    unfold genSplit
    split
    · rename_i hn
      have := IndexByte_eq_none hn
      unfold Count at h
      rw [List.count_eq_zero_of_not_mem this] at h
      omega
    · rename_i m hm
      have := Count_drop_of_IndexByte hm
      simp only [List.length_cons, Nat.add_right_cancel_iff]
      exact ih _ (by omega)

/-- `Split` yields one piece more than there are separators. -/
theorem Split_length (s : String) (sep : Char) :
    (Split s sep).length = s.data.count sep + 1 := by
  unfold Split
  rw [List.length_map]
  exact genSplit_length sep _ _ rfl

/-- The pieces of `genSplit` contain no separator and, joined by it, give the string back. -/
theorem genSplit_join (sep : Char) (k : Nat) (s : List Char) (h : Count s sep = k) :
    [sep].intercalate (genSplit sep k s) = s ∧ ∀ p ∈ genSplit sep k s, sep ∉ p := by
  induction k generalizing s with
  | zero =>
    simp only [genSplit, List.mem_singleton, forall_eq]
    refine ⟨by simp [List.intercalate], ?_⟩
    exact List.count_eq_zero.mp h
  | succ k ih =>
    unfold genSplit
    split
    · rename_i hn
      have := IndexByte_eq_none hn
      unfold Count at h
      rw [List.count_eq_zero_of_not_mem this] at h
      omega
    · rename_i m hm
      have hc := Count_drop_of_IndexByte hm
      obtain ⟨h1, h2⟩ := IndexByte_eq_some hm
      obtain ⟨j1, j2⟩ := ih (s.drop (m + 1)) (by omega)
      have hlen := genSplit_length sep k (s.drop (m + 1)) (by omega)
      refine ⟨?_, ?_⟩
      · cases hg : genSplit sep k (List.drop (m + 1) s) with
        | nil => rw [hg] at hlen; simp at hlen
        | cons q qs =>
          rw [hg] at j1
          conv_rhs => rw [h1, ← j1]
          simp [List.intercalate]
      · intro p hp
        rcases List.mem_cons.mp hp with rfl | hp
        · exact h2
        · exact j2 p hp

theorem IndexByte_append {a : List Char} {c : Char} (r : List Char) (h : c ∉ a) :
    IndexByte (a ++ c :: r) c = some a.length := by
  induction a with
  | nil => simp [IndexByte]
  | cons x xs ih =>
    simp only [List.mem_cons, not_or] at h
    have hxs := ih h.2
    simp only [List.cons_append, List.length_cons]
    unfold IndexByte
    rw [if_neg (fun e => h.1 e.symm), hxs]
    rfl

/-- A string made of three slash-free segments joined by `/` splits into these segments. -/
theorem Split_three_segments (a b c : List Char) (ha : '/' ∉ a) (hb : '/' ∉ b)
    (hc : '/' ∉ c) :
    Split (String.mk (a ++ '/' :: (b ++ '/' :: c))) '/' = [String.mk a, String.mk b, String.mk c] := by
  have hcount : Count (a ++ '/' :: (b ++ '/' :: c)) '/' = 2 := by
    unfold Count
    rw [List.count_append, List.count_cons_self, List.count_append, List.count_cons_self,
      List.count_eq_zero_of_not_mem ha, List.count_eq_zero_of_not_mem hb,
      List.count_eq_zero_of_not_mem hc]
  have hdrop : ∀ (x y : List Char), (x ++ '/' :: y).drop (x.length + 1) = y := by
    intro x y
    induction x with
    | nil => simp
    | cons z zs ih => simp
  unfold Split
  simp only [hcount]
  simp only [genSplit, IndexByte_append _ ha, List.take_left', hdrop, IndexByte_append _ hb,
    List.map_cons, List.map_nil]

theorem broker_name_ne_empty (a b : String) : "broker:" ++ a ++ "." ++ b ≠ "" := by
  intro h
  have := congrArg String.data h
  simp only [String.data_append] at this
  simp at this

/-- A path of the shape `/<ns>/<broker>` has exactly two slashes. -/
theorem isNsBrokerPath_count (p : String) (h : isNsBrokerPath p = true) :
    p.data.count '/' = 2 := by
  unfold isNsBrokerPath at h
  split at h
  · rename_i rest hp
    split at h
    · rename_i b hb
      simp only [Bool.and_eq_true, Bool.not_eq_true', List.contains_eq_any_beq] at h
      obtain ⟨_, h3⟩ := h
      have hsplit := List.takeWhile_append_dropWhile (fun c => decide (c ≠ '/')) rest
      rw [hb] at hsplit
      rw [hp, ← hsplit]
      have h1 : '/' ∉ rest.takeWhile (fun c => decide (c ≠ '/')) := by
        intro hm
        have := List.mem_takeWhile_imp hm
        simp at this
      have h2 : '/' ∉ b := by
        intro hm
        have : b.any (fun x => '/' == x) = true := List.any_eq_true.mpr ⟨_, hm, by simp⟩
        rw [this] at h3
        simp at h3
      rw [List.count_cons_self, List.count_append, List.count_cons_self,
        List.count_eq_zero_of_not_mem h1, List.count_eq_zero_of_not_mem h2]
    · simp at h
  · simp at h

/-- The predicate `isNsBrokerPath` says what its name says: the path is `/a/b` with `a` and `b`
non-empty and free of slashes. -/
theorem isNsBrokerPath_iff (p : String) :
    isNsBrokerPath p = true ↔
      ∃ a b : List Char, a ≠ [] ∧ b ≠ [] ∧ '/' ∉ a ∧ '/' ∉ b ∧ p.data = '/' :: (a ++ '/' :: b) := by
  constructor
  · intro h
    unfold isNsBrokerPath at h
    split at h
    · rename_i rest hp
      split at h
      · rename_i b hb
        simp only [Bool.and_eq_true, Bool.not_eq_true', List.contains_eq_any_beq,
          List.isEmpty_eq_false] at h
        obtain ⟨⟨ha, hbne⟩, h3⟩ := h
        have hsplit := List.takeWhile_append_dropWhile (fun c => decide (c ≠ '/')) rest
        rw [hb] at hsplit
        refine ⟨rest.takeWhile (fun c => decide (c ≠ '/')), b, ?_, ?_, ?_, ?_, ?_⟩
        · simpa using ha
        · simpa using hbne
        · intro hm
          have := List.mem_takeWhile_imp hm
          simp at this
        · intro hm
          have : b.any (fun x => '/' == x) = true := List.any_eq_true.mpr ⟨_, hm, by simp⟩
          rw [this] at h3
          simp at h3
        · rw [hp, hsplit]
      · simp at h
    · simp at h
  · rintro ⟨a, b, ha, hb, hna, hnb, hp⟩
    have htake : ∀ l : List Char, '/' ∉ l →
        (l ++ '/' :: b).takeWhile (fun c => decide (c ≠ '/')) = l ∧
        (l ++ '/' :: b).dropWhile (fun c => decide (c ≠ '/')) = '/' :: b := by
      intro l hl
      induction l with
      | nil => simp [List.takeWhile, List.dropWhile]
      | cons x xs ih =>
        simp only [List.mem_cons, not_or] at hl
        have hx : x ≠ '/' := fun e => hl.1 e.symm
        obtain ⟨i1, i2⟩ := ih hl.2
        have hdec : decide (x ≠ '/') = true := by simpa using hx
        simp only [List.cons_append, List.takeWhile_cons, List.dropWhile_cons, hdec, if_true,
          i1, i2, and_self]
    obtain ⟨t1, t2⟩ := htake a hna
    unfold isNsBrokerPath
    rw [hp]
    simp only [t1, t2]
    have hany : b.contains '/' = false := by
      simpa using hnb
    cases a with
    | nil => exact absurd rfl ha
    | cons x xs =>
      cases b with
      | nil => exact absurd rfl hb
      | cons y ys =>
        simp only [List.mem_cons, not_or] at hnb
        simp [hany, hnb]

/-- Claim C1. For every request path, `formatSpanName` returns `"broker:" ++ s1 ++ "." ++ s2`
when splitting the path on `/` yields exactly three pieces `[s0, s1, s2]`, and the empty string
when the split yields any other number of pieces. The split yields `[s0, s1, s2]` whenever the
path is `s0/s1/s2` with no slash inside the three segments. -/
theorem formatSpanName_three_pieces (p : String) :
    (∀ s0 s1 s2 : String, Split p '/' = [s0, s1, s2] →
        formatSpanName p = "broker:" ++ s1 ++ "." ++ s2) ∧
    ((Split p '/').length ≠ 3 → formatSpanName p = "") ∧
    (∀ a b c : List Char, '/' ∉ a → '/' ∉ b → '/' ∉ c →
        p.data = a ++ '/' :: (b ++ '/' :: c) →
        Split p '/' = [String.mk a, String.mk b, String.mk c] ∧
        formatSpanName p = "broker:" ++ String.mk b ++ "." ++ String.mk c) := by
  have h3 : ∀ s0 s1 s2 : String, Split p '/' = [s0, s1, s2] →
      formatSpanName p = "broker:" ++ s1 ++ "." ++ s2 := by
    intro s0 s1 s2 h
    simp [formatSpanName, h]
  refine ⟨h3, ?_, ?_⟩
  · intro h
    simp [formatSpanName, h]
  · intro a b c ha hb hc hp
    have hs : Split p '/' = [String.mk a, String.mk b, String.mk c] := by
      have hp' : p = String.mk (a ++ '/' :: (b ++ '/' :: c)) := String.ext hp
      rw [hp']
      exact Split_three_segments a b c ha hb hc
    exact ⟨hs, h3 _ _ _ hs⟩

/-- Claim C1 at `/ns1/broker1`, which gives `broker:ns1.broker1`, and at `/a/b/c`, which splits
into four pieces. -/
theorem formatSpanName_three_pieces_witness :
    Split "/ns1/broker1" '/' = ["", "ns1", "broker1"] ∧
    formatSpanName "/ns1/broker1" = "broker:ns1.broker1" ∧
    (Split "/a/b/c" '/').length ≠ 3 ∧ formatSpanName "/a/b/c" = "" :=
  ⟨by decide, (formatSpanName_three_pieces "/ns1/broker1").1 "" "ns1" "broker1" (by decide),
   by decide, (formatSpanName_three_pieces "/a/b/c").2.1 (by decide)⟩

/-- Claim C2 as stated fails: `/a/` is not a leading slash followed by two non-empty segments,
yet it splits into three pieces and gets the name `broker:a.`. -/
theorem formatSpanName_trailing_slash_nonempty :
    isNsBrokerPath "/a/" = false ∧ formatSpanName "/a/" = "broker:a." ∧
    formatSpanName "/a/" ≠ "" := by decide

/-- Claim C2, amended. `formatSpanName` returns the empty string exactly for the paths that do
not contain exactly two slashes; a path with two slashes gets a name even when a segment is
empty or the leading slash is missing. -/
theorem formatSpanName_eq_empty_iff (p : String) :
    formatSpanName p = "" ↔ p.data.count '/' ≠ 2 := by
  have hl := Split_length p '/'
  unfold formatSpanName
  constructor
  · intro h hc
    simp only [hl, hc] at h
    simp only [Nat.reduceAdd, ne_eq, not_true_eq_false, ↓reduceIte] at h
    exact broker_name_ne_empty _ _ h
  · intro hc
    have : (Split p '/').length ≠ 3 := by omega
    simp [this]

/-- Claim C2, amended, at the paths `/`, `/onlyone`, `/a/b/c` (empty name) and `//` (a name). -/
theorem formatSpanName_eq_empty_iff_witness :
    formatSpanName "/" = "" ∧ formatSpanName "/onlyone" = "" ∧ formatSpanName "/a/b/c" = "" ∧
    formatSpanName "//" ≠ "" :=
  ⟨(formatSpanName_eq_empty_iff "/").2 (by decide),
   (formatSpanName_eq_empty_iff "/onlyone").2 (by decide),
   (formatSpanName_eq_empty_iff "/a/b/c").2 (by decide),
   fun h => (formatSpanName_eq_empty_iff "//").1 h (by decide)⟩

/-! Facts about the shutdown timeout. -/

theorem Value_nil_of_not_attached (ctx : Context) (h : ctx.attachesShutdownTimeout = false) :
    ctx.Value .shutdownTimeoutKey = .nil := by
  induction ctx with
  | background => rfl
  | withValue parent k v ih =>
    simp only [Context.attachesShutdownTimeout, Bool.or_eq_false_iff, beq_eq_false_iff_ne] at h
    simp only [Context.Value, h.1, if_false]
    exact ih h.2
  | withCancel parent ih => exact ih h
  | withTimeout parent _ ih => exact ih h

/-- Claim C3. For every context in which no value is attached under `shutdownTimeoutKey` (the
background context, or one derived from it by cancellation, deadlines and values under other
keys), `getShutdownTimeout` returns `DefaultShutdownTimeout`, which is 1 minute, that is
`60 * 10^9` nanoseconds. -/
theorem getShutdownTimeout_default (ctx : Context) (h : ctx.attachesShutdownTimeout = false) :
    getShutdownTimeout ctx = some DefaultShutdownTimeout ∧
    DefaultShutdownTimeout = 60 * 10 ^ 9 := by
  refine ⟨?_, by decide⟩
  unfold getShutdownTimeout
  rw [Value_nil_of_not_attached ctx h]

/-- Claim C3 at the background context and at a cancellable context carrying a value under
another key. -/
theorem getShutdownTimeout_default_witness :
    (getShutdownTimeout .background = some DefaultShutdownTimeout ∧
      DefaultShutdownTimeout = 60 * 10 ^ 9) ∧
    (getShutdownTimeout (.withCancel (.withValue .background (.other "user") (.other "alice")))
        = some DefaultShutdownTimeout ∧ DefaultShutdownTimeout = 60 * 10 ^ 9) :=
  ⟨getShutdownTimeout_default .background (by decide),
   getShutdownTimeout_default _ (by decide)⟩

/-- Claim C4. For every context `ctx`, also one that already carries a shutdown timeout, and
every duration `d`, also zero or negative, `getShutdownTimeout (WithShutdownTimeout ctx d)` is
`d`: the most recently attached duration is resolved, never the default or an earlier one. -/
theorem getShutdownTimeout_WithShutdownTimeout (ctx : Context) (d : Duration) :
    getShutdownTimeout (WithShutdownTimeout ctx d) = some d := by
  simp [getShutdownTimeout, WithShutdownTimeout, Context.Value]

/-- Claim C5. The attachment is namespaced: for every key `k` other than `shutdownTimeoutKey`,
looking `k` up in `WithShutdownTimeout ctx d` gives what it gives in `ctx`, and attaching a
value under `k` does not change `getShutdownTimeout`. -/
theorem shutdownTimeoutKey_namespaced (ctx : Context) (d : Duration) (k : Key) (v : Any)
    (hk : k ≠ .shutdownTimeoutKey) :
    (WithShutdownTimeout ctx d).Value k = ctx.Value k ∧
    getShutdownTimeout (.withValue ctx k v) = getShutdownTimeout ctx := by
  constructor
  · simp [WithShutdownTimeout, Context.Value, Ne.symm hk]
  · simp [getShutdownTimeout, Context.Value, hk]

/-- Claim C5 at a context carrying a timeout of 5ns, the key `user` and a duration value. -/
theorem shutdownTimeoutKey_namespaced_witness :
    Key.other "user" ≠ Key.shutdownTimeoutKey ∧
    (WithShutdownTimeout (WithShutdownTimeout .background 5) 9).Value (.other "user")
        = (WithShutdownTimeout .background 5).Value (.other "user") ∧
    getShutdownTimeout (.withValue (WithShutdownTimeout .background 5) (.other "user")
        (.duration 7)) = getShutdownTimeout (WithShutdownTimeout .background 5) :=
  ⟨by decide,
   shutdownTimeoutKey_namespaced (WithShutdownTimeout .background 5) 9 (.other "user")
     (.duration 7) (by decide)⟩

/-! The invariant holds in every reachable state. -/

theorem signals_eq_nil {l : List Branch} (h1 : Branch.ctxDone ∉ l) (h2 : Branch.errChan ∉ l) :
    l = [] := by
  cases l with
  | nil => rfl
  | cons b bs =>
    cases b
    · exact absurd (List.mem_cons_self _ _) h1
    · exact absurd (List.mem_cons_self _ _) h2

theorem head?_append_of_head? {l : List Branch} {b : Branch} (c : Branch)
    (h : l.head? = some b) : (l ++ [c]).head? = some b := by
  cases l with
  | nil => simp at h
  | cons x xs => simpa using h

theorem Inv_init (recv0 : HttpMessageReceiver) (ctx : Context) (handler : UserHandler) :
    Inv recv0 ctx handler (State.init recv0) := by
  simp [Inv, State.init, sigOk, noServe]

theorem Inv_step {recv0 : HttpMessageReceiver} {ctx : Context} {handler : UserHandler}
    {s s' : State} {a : Action}
    (hi : Inv recv0 ctx handler s) (hs : step ctx handler s a = some s') :
    Inv recv0 ctx handler s' := by
  obtain ⟨⟨port, h, server, listener⟩, pc, ctxDone, listenCalls, errChan, goroutine,
    shutdownCalls, shutdownResult, received, branches, signals, parked⟩ := s
  cases a with
  | listenOk l =>
    cases pc <;> simp [step] at hs
    subst hs
    simp only [Inv, sigOk, noServe, recvOk] at hi ⊢
    obtain ⟨h1, h2, h3, h4, h5⟩ := hi
    subst h3 h4
    exact ⟨h1, h2, ⟨l, by simp, by simp⟩, h5⟩
  | listenErr e =>
    cases pc <;> simp [step] at hs
    subst hs
    simp only [Inv, sigOk, noServe, finishedOk] at hi ⊢
    obtain ⟨h1, h2, h3, h4, h5⟩ := hi
    subst h3 h4
    exact ⟨h1, Or.inl ⟨h2.2.2.1, h2, ⟨e, rfl⟩, rfl, by simp, h5⟩⟩
  | createHandler =>
    cases pc <;> simp [step] at hs
    subst hs
    simp only [Inv, sigOk, noServe, recvOk] at hi ⊢
    obtain ⟨h1, h2, ⟨l, h3, h4⟩, h5⟩ := hi
    refine ⟨h1, h2, ⟨l, ?_, h4⟩, h5⟩
    simp only [HttpMessageReceiver.mk.injEq] at h3 ⊢
    simp [h3]
  | newServer =>
    cases pc <;> simp [step] at hs
    simp only [Inv, sigOk, noServe, recvOk] at hi
    obtain ⟨h1, h2, ⟨l, h3, h4⟩, h5⟩ := hi
    simp only [HttpMessageReceiver.mk.injEq] at h3
    obtain ⟨rfl, rfl, h6, rfl⟩ := h3
    simp only [if_true, Option.some.injEq] at hs
    subst hs
    simp only [Inv, sigOk, noServe, recvOk, resourcesUp]
    refine ⟨h1, h2, ⟨l, ?_, h4⟩, h5⟩
    simp
  | makeChan =>
    cases pc <;> simp [step] at hs
    subst hs
    simp only [Inv, sigOk, noServe, resourcesUp] at hi ⊢
    tauto
  | goServe =>
    cases pc <;> simp [step] at hs
    subst hs
    simp only [Inv, sigOk, noServe, resourcesUp, chanOk] at hi ⊢
    tauto
  | ret =>
    cases pc <;> simp [step] at hs
    subst hs
    simp only [Inv, sigOk, finishedOk, noServe, resourcesUp, parkOk] at hi ⊢
    exact hi
  | shutdownReturns r =>
    cases pc <;> simp [step] at hs
    subst hs
    simp only [Inv, sigOk, waitingOk, resourcesUp, parkOk, chanOk] at hi ⊢
    tauto
  | callShutdown =>
    cases pc <;> simp [step] at hs
    simp only [Inv, sigOk, waitingOk, resourcesUp, parkOk, chanOk] at hi
    obtain ⟨h1, h2, h3, h4⟩ := hi
    cases hd : getShutdownTimeout ctx <;> simp [hd] at hs <;> subst hs <;>
      simp only [Inv, sigOk, waitingOk, resourcesUp, parkOk, chanOk]
    · tauto
    · subst h3
      refine ⟨h1, h2, h4, _, hd, ?_⟩
      simp
  | serveReturns e =>
    cases goroutine <;> simp [step] at hs
    subst hs
    cases pc <;> simp only [Inv, sigOk, waitingOk, resourcesUp, parkOk, chanOk, finishedOk,
      noServe, reduceCtorEq, false_and, and_false, exists_false, or_false, false_or] at hi ⊢ <;>
      tauto
  | selectDone =>
    cases pc <;> cases ctxDone <;> simp [step] at hs
    subst hs
    simp only [Inv, sigOk, waitingOk, resourcesUp, parkOk, chanOk] at hi ⊢
    obtain ⟨h1, h2, h3, h4, h5, h6, h7, h8⟩ := hi
    subst h4 h5 h6
    simp
    tauto
  | selectBlock =>
    cases pc <;> cases ctxDone <;> simp [step] at hs
    split at hs <;> simp at hs
    subst hs
    simp only [Inv, sigOk, waitingOk, resourcesUp, parkOk, chanOk] at hi ⊢
    obtain ⟨h1, h2, h3, h4, h5, h6, h7, h8⟩ := hi
    have hc : Branch.ctxDone ∉ signals := fun hm => by simpa using h1.mpr hm
    have he : Branch.errChan ∉ signals := by
      cases goroutine <;> simp at h3 <;> tauto
    exact ⟨h1, h2, h3, h4, h5, trivial, h7, h8, signals_eq_nil hc he⟩
  | selectErr =>
    cases pc <;> simp [step] at hs
    split at hs <;> simp at hs
    subst hs
    simp only [Inv, sigOk, waitingOk, resourcesUp, parkOk, chanOk, finishedOk] at hi ⊢
    obtain ⟨h1, h2, h3, h4, h5, h6, h7, h8⟩ := hi
    subst h4 h5 h6 h7 h8
    refine ⟨h1, Or.inr (Or.inr ?_)⟩
    cases goroutine <;> simp at h3
    obtain ⟨⟨rfl, rfl⟩, hm⟩ := h3
    simp [h2, hm]
  | drain =>
    cases pc <;> simp [step] at hs
    split at hs <;> simp at hs
    subst hs
    simp only [Inv, sigOk, waitingOk, resourcesUp, parkOk, chanOk, finishedOk] at hi ⊢
    obtain ⟨h1, ⟨h2, h3, h4, h5, h6, h7⟩, h8, h9⟩ := hi
    rename_i heq
    cases heq
    subst h4 h5 h6
    refine ⟨h1, Or.inr (Or.inl ?_)⟩
    cases goroutine <;> simp at h3
    obtain ⟨⟨rfl, rfl⟩, hm⟩ := h3
    simp only [List.nil_append, true_and]
    refine ⟨h2, h7, h9, h8, ?_⟩
    simp [hm]
  | cancel =>
    cases ctxDone <;> simp [step] at hs
    cases pc <;> simp at hs <;> subst hs <;>
     simp only [Inv, sigOk, waitingOk, resourcesUp, parkOk, chanOk, finishedOk,
      noServe, reduceCtorEq, false_and, and_false, exists_false, or_false, false_or] at hi ⊢
    case blocked =>
      obtain ⟨h1, h2, h3, h4, h5, h6, h7, h8, h9⟩ := hi
      subst h4 h5 h6 h9
      refine ⟨by simp, ⟨h2, ?_, by simp⟩, h7, h8⟩
      cases goroutine <;> simp at h3 ⊢ <;> tauto
    all_goals
      have hh : ∀ b, (parked = true → signals.head? = some b) →
          (parked = true → (signals ++ [Branch.ctxDone]).head? = some b) :=
        fun b hb hp => head?_append_of_head? _ (hb hp)
      simp only [List.mem_append, List.mem_singleton, reduceCtorEq, or_false, or_true] at hi ⊢
    all_goals
      first
        | exact ⟨trivial, hi.2⟩
        | (obtain ⟨-, h2 | h2⟩ := hi
           · exact ⟨trivial, Or.inl h2⟩
           · obtain ⟨a1, a2, a3, a4⟩ := h2
             exact ⟨trivial, Or.inr (Or.inr ⟨a1, a2, hh _ a3, a4⟩)⟩)
  | send =>
    cases goroutine <;> simp [step] at hs
    rename_i e
    rcases errChan with _ | _ | ⟨x, xs⟩
    · simp at hs
    · have hh : ∀ b, (parked = true → signals.head? = some b) →
          (parked = true → (signals ++ [Branch.errChan]).head? = some b) :=
        fun b hb hp => head?_append_of_head? _ (hb hp)
      cases pc <;> simp at hs <;> subst hs <;>
        simp only [Inv, sigOk, waitingOk, resourcesUp, parkOk, chanOk, finishedOk,
          noServe, reduceCtorEq, false_and, and_false, exists_false, or_false, false_or,
          List.mem_append, List.mem_singleton, or_true] at hi ⊢
      case select => exact ⟨hi.1, hi.2.1, ⟨trivial, trivial⟩, hi.2.2.2⟩
      case blocked =>
        obtain ⟨h1, h2, h3, h4, h5, h6, h7, h8, h9⟩ := hi
        subst h4 h5 h6 h9
        refine ⟨h1, Or.inr ⟨by simp, h2, by simp, trivial, h7, h8, trivial, by simp, trivial⟩⟩
      all_goals
        obtain ⟨h1, ⟨h2, h3, h4, h5, h6, h7⟩, h8⟩ := hi
        exact ⟨h1, ⟨h2, ⟨trivial, trivial⟩, h4, h5, h6, hh _ h7⟩, h8⟩
    · simp at hs

theorem Inv_exec {recv0 : HttpMessageReceiver} {ctx : Context} {handler : UserHandler} :
    ∀ (sched : List Action) (s s' : State),
      Inv recv0 ctx handler s → exec ctx handler s sched = some s' → Inv recv0 ctx handler s'
  | [], s, s', hi, hs => by
    simp only [exec, Option.some.injEq] at hs
    exact hs ▸ hi
  | a :: as, s, s', hi, hs => by
    simp only [exec] at hs
    cases hst : step ctx handler s a with
    | none => simp [hst] at hs
    | some s1 =>
      simp only [hst] at hs
      exact Inv_exec as s1 s' (Inv_step hi hst) hs

/-- Every state `StartListen` reaches satisfies the invariant. -/
theorem StartListen_Inv {recv0 : HttpMessageReceiver} {ctx : Context} {handler : UserHandler}
    {sched : List Action} {s : State} (hrun : StartListen recv0 ctx handler sched = some s) :
    Inv recv0 ctx handler s :=
  Inv_exec sched _ s (Inv_init recv0 ctx handler) hrun

/-! Progress: a coordinator that has not returned can take a step towards its return. -/

theorem progress {recv0 : HttpMessageReceiver} {ctx : Context} {handler : UserHandler}
    {s : State} {d : Duration}
    (hi : Inv recv0 ctx handler s) (hd : getShutdownTimeout ctx = some d)
    (hpc : ∀ r, s.pc ≠ .returned r) :
    ∃ a s', step ctx handler s a = some s' ∧ rank s' < rank s := by
  obtain ⟨⟨port, h, server, listener⟩, pc, ctxDone, listenCalls, errChan, goroutine,
    shutdownCalls, shutdownResult, received, branches, signals, parked⟩ := s
  cases pc with
  | listen => exact ⟨.listenOk ⟨""⟩, _, rfl, by simp [rank]⟩
  | createHandler => exact ⟨.createHandler, _, rfl, by simp [rank]⟩
  | newServer =>
    simp only [Inv, noServe, recvOk] at hi
    obtain ⟨-, -, ⟨l, h3, -⟩, -⟩ := hi
    simp only [HttpMessageReceiver.mk.injEq, if_true] at h3
    obtain ⟨-, rfl, -, rfl⟩ := h3
    exact ⟨.newServer, _, rfl, by simp [rank]⟩
  | makeChan => exact ⟨.makeChan, _, rfl, by simp [rank]⟩
  | goServe => exact ⟨.goServe, _, rfl, by simp [rank, gRank]⟩
  | select =>
    simp only [Inv, chanOk] at hi
    obtain ⟨-, -, hc, -⟩ := hi
    cases goroutine with
    | notStarted => exact absurd hc (by simp)
    | serving => exact ⟨.serveReturns none, _, rfl, by simp [rank, gRank]⟩
    | sending e =>
      simp only at hc
      obtain ⟨rfl, -⟩ := hc
      exact ⟨.send, _, rfl, by simp [rank, gRank]⟩
    | exited e =>
      simp only at hc
      obtain ⟨rfl, -⟩ := hc
      exact ⟨.selectErr, _, rfl, by simp [rank, gRank]⟩
  | blocked =>
    simp only [Inv, chanOk] at hi
    obtain ⟨-, -, hc, -, -, -, -, -, rfl⟩ := hi
    cases goroutine with
    | notStarted => exact absurd hc (by simp)
    | serving => exact ⟨.serveReturns none, _, rfl, by simp [rank, gRank]⟩
    | sending e =>
      simp only at hc
      obtain ⟨rfl, -⟩ := hc
      exact ⟨.send, _, rfl, by simp [rank, gRank]⟩
    | exited e => simp at hc
  | shutdown =>
    refine ⟨.callShutdown, State.mk ⟨port, h, server, listener⟩ .inShutdown ctxDone listenCalls
      errChan goroutine (shutdownCalls ++ [.withTimeout .background d]) shutdownResult received
      branches signals parked, ?_, ?_⟩
    · simp only [step, hd]
    · simp [rank]
  | inShutdown => exact ⟨.shutdownReturns none, _, rfl, by simp [rank]⟩
  | drain r =>
    simp only [Inv, waitingOk, chanOk] at hi
    obtain ⟨-, ⟨-, hc, -⟩, -⟩ := hi
    cases goroutine with
    | notStarted => exact absurd hc (by simp)
    | serving => exact ⟨.serveReturns none, _, rfl, by simp [rank, gRank]⟩
    | sending e =>
      simp only at hc
      obtain ⟨rfl, -⟩ := hc
      exact ⟨.send, _, rfl, by simp [rank, gRank]⟩
    | exited e =>
      simp only at hc
      obtain ⟨rfl, -⟩ := hc
      exact ⟨.drain, _, rfl, by simp [rank, gRank]⟩
  | ret r => exact ⟨.ret, _, rfl, by simp [rank]⟩
  | returned r => exact absurd rfl (hpc r)
  | panicked =>
    simp only [Inv] at hi
    obtain ⟨-, -, -, -, hp⟩ := hi
    rw [hd] at hp
    exact absurd hp (by simp)

/-- From every state satisfying the invariant some continuation reaches a return. -/
theorem can_return {recv0 : HttpMessageReceiver} {ctx : Context} {handler : UserHandler}
    {d : Duration} (hd : getShutdownTimeout ctx = some d) :
    ∀ (n : Nat) (s : State), rank s ≤ n → Inv recv0 ctx handler s →
      ∃ more s' r, exec ctx handler s more = some s' ∧ s'.pc = .returned r
  | n, s, hn, hi => by
    by_cases hpc : ∃ r, s.pc = .returned r
    · obtain ⟨r, hr⟩ := hpc
      exact ⟨[], s, r, rfl, hr⟩
    · have hne : ∀ r, s.pc ≠ .returned r := fun r hr => hpc ⟨r, hr⟩
      obtain ⟨a, s1, hst, hlt⟩ := progress hi hd hne
      cases n with
      | zero => omega
      | succ m =>
        obtain ⟨more, s', r, hex, hr⟩ := can_return hd m s1 (by omega) (Inv_step hi hst)
        exact ⟨a :: more, s', r, by simp [exec, hst, hex], hr⟩

/-! A failed bind. -/

theorem step_listenErr_of_pc_ne {ctx : Context} {handler : UserHandler} {s : State}
    {e : GoError} (h : s.pc ≠ .listen) : step ctx handler s (.listenErr e) = none := by
  obtain ⟨recv, pc, _⟩ := s
  cases pc <;> simp [step] at h ⊢

theorem step_pc_ne_listen {ctx : Context} {handler : UserHandler} {s s' : State} {a : Action}
    (h : s.pc ≠ .listen) (hs : step ctx handler s a = some s') : s'.pc ≠ .listen := by
  obtain ⟨⟨port, hd, server, listener⟩, pc, ctxDone, listenCalls, errChan, goroutine,
    shutdownCalls, shutdownResult, received, branches, signals, parked⟩ := s
  cases a <;> cases pc <;> simp [step] at hs h <;>
    (try split at hs) <;> (try simp at hs) <;>
    (try (obtain ⟨-, rfl⟩ := hs; simp))

theorem no_listenErr_after {ctx : Context} {handler : UserHandler} {e : GoError} :
    ∀ (sched : List Action) (s s' : State),
      s.pc ≠ .listen → exec ctx handler s sched = some s' → Action.listenErr e ∉ sched
  | [], _, _, _, _ => by simp
  | a :: as, s, s', h, hs => by
    simp only [exec] at hs
    cases hst : step ctx handler s a with
    | none => simp [hst] at hs
    | some s1 =>
      simp only [hst] at hs
      have ih := no_listenErr_after (e := e) as s1 s' (step_pc_ne_listen h hst) hs
      simp only [List.mem_cons, not_or]
      refine ⟨?_, ih⟩
      rintro rfl
      rw [step_listenErr_of_pc_ne h] at hst
      exact absurd hst (by simp)

theorem bindFailed_step {ctx : Context} {handler : UserHandler} {s s' : State} {a : Action}
    {e : GoError} (h : bindFailed e s) (hs : step ctx handler s a = some s') :
    bindFailed e s' := by
  obtain ⟨⟨port, hd, server, listener⟩, pc, ctxDone, listenCalls, errChan, goroutine,
    shutdownCalls, shutdownResult, received, branches, signals, parked⟩ := s
  obtain ⟨hpc, hg⟩ := h
  simp only at hpc hg
  subst hg
  rcases hpc with rfl | rfl <;> cases a <;> simp [step] at hs <;>
    (obtain ⟨-, rfl⟩ := hs; simp [bindFailed])

theorem bindFailed_exec {ctx : Context} {handler : UserHandler} {e : GoError} :
    ∀ (sched : List Action) (s s' : State),
      bindFailed e s → exec ctx handler s sched = some s' → bindFailed e s'
  | [], s, s', h, hs => by
    simp only [exec, Option.some.injEq] at hs
    exact hs ▸ h
  | a :: as, s, s', h, hs => by
    simp only [exec] at hs
    cases hst : step ctx handler s a with
    | none => simp [hst] at hs
    | some s1 =>
      simp only [hst] at hs
      exact bindFailed_exec as s1 s' (bindFailed_step h hst) hs

/-- A schedule in which `net.Listen` fails with `e` ends at the `return` of that error. -/
theorem bind_error_exec {ctx : Context} {handler : UserHandler} {e : GoError} :
    ∀ (sched : List Action) (s s' : State),
      s.pc = .listen → s.goroutine = .notStarted → exec ctx handler s sched = some s' →
      Action.listenErr e ∈ sched → bindFailed e s'
  | [], _, _, _, _, _, hm => by simp at hm
  | a :: as, s, s', hpc, hg, hs, hm => by
    simp only [exec] at hs
    cases hst : step ctx handler s a with
    | none => simp [hst] at hs
    | some s1 =>
      simp only [hst] at hs
      obtain ⟨⟨port, hd, server, listener⟩, pc, ctxDone, listenCalls, errChan, goroutine,
        shutdownCalls, shutdownResult, received, branches, signals, parked⟩ := s
      simp only at hpc hg
      subst hpc hg
      cases a <;> simp [step] at hst
      case listenOk l =>
        subst hst
        have hno := no_listenErr_after (e := e) as _ s' (by simp) hs
        simp only [List.mem_cons, reduceCtorEq, false_or] at hm
        exact absurd hm hno
      case listenErr e' =>
        subst hst
        have hno := no_listenErr_after (e := e) as _ s' (by simp) hs
        simp only [List.mem_cons, Action.listenErr.injEq] at hm
        rcases hm with rfl | hm
        · exact bindFailed_exec as _ s' (by simp [bindFailed]) hs
        · exact absurd hm hno
      case cancel =>
        obtain ⟨-, rfl⟩ := hst
        simp only [List.mem_cons, reduceCtorEq, false_or] at hm
        exact bind_error_exec as _ s' rfl rfl hs hm

/-! The claims about `StartListen`. -/

/-- Claim C6. Once serving has started, a call of `StartListen` that has returned `r` either
took the cancellation case, and `r` is the result of `Shutdown` whatever `Serve` produced, or
took the `errChan` case without calling `Shutdown`, and `r` is the error `Serve` returned.
Moreover, as long as the shutdown timeout resolves, the call can always go on to return. -/
theorem StartListen_return_value (recv0 : HttpMessageReceiver) (ctx : Context)
    (handler : UserHandler) (sched : List Action) (s : State)
    (hrun : StartListen recv0 ctx handler sched = some s)
    (hserve : s.goroutine ≠ .notStarted) :
    (∀ r, s.pc = .returned r →
      (s.branches = [.ctxDone] ∧ s.ctxDone = true ∧ s.shutdownResult = some r) ∨
      (s.branches = [.errChan] ∧ s.shutdownCalls = [] ∧ s.goroutine = .exited r)) ∧
    (∀ d, getShutdownTimeout ctx = some d →
      ∃ more s' r, exec ctx handler s more = some s' ∧ s'.pc = .returned r) := by
  have hi := StartListen_Inv hrun
  refine ⟨?_, fun d hd => can_return hd _ s (Nat.le_refl _) hi⟩
  intro r hr
  simp only [Inv, hr, finishedOk, noServe] at hi
  obtain ⟨-, h | h | h⟩ := hi
  · exact absurd h.2.1.1 hserve
  · exact Or.inl ⟨h.1, h.2.2.1, h.2.2.2.2.2.1⟩
  · exact Or.inr ⟨h.1, h.2.2.2.2.1, h.2.2.2.2.2.2.1⟩

/-- Claim C6 on a cancelled run, which returns the nil of `Shutdown` although `Serve` returned
`ErrServerClosed`, and on a run where `Serve` fails, which returns that failure. -/
theorem StartListen_return_value_witness :
    (StartListen exampleRecv .background exampleHandler cancelSchedule
        = some (cancelFinal DefaultShutdownTimeout) ∧
      (cancelFinal DefaultShutdownTimeout).pc = .returned none ∧
      (cancelFinal DefaultShutdownTimeout).goroutine = .exited (some ErrServerClosed) ∧
      (cancelFinal DefaultShutdownTimeout).shutdownResult = some none) ∧
    (StartListen exampleRecv .background exampleHandler serveFailSchedule = some serveFailFinal ∧
      serveFailFinal.pc = .returned (some errAccept) ∧
      serveFailFinal.shutdownCalls = [] ∧
      serveFailFinal.goroutine = .exited (some errAccept)) := by
  have cancelled := (StartListen_return_value exampleRecv .background exampleHandler
    cancelSchedule (cancelFinal DefaultShutdownTimeout) rfl (by decide)).1 none rfl
  have failed := (StartListen_return_value exampleRecv .background exampleHandler
    serveFailSchedule serveFailFinal rfl (by decide)).1 (some errAccept) rfl
  refine ⟨⟨rfl, rfl, rfl, ?_⟩, ⟨rfl, rfl, ?_⟩⟩
  · rcases cancelled with h | h
    · exact h.2.2
    · exact absurd h.1 (by decide)
  · rcases failed with h | h
    · exact absurd h.1 (by decide)
    · exact h.2

/-- Claim C7. If `net.Listen` fails with `e`, the coordinator is at `return err` with `e`, or
has returned `e`: `net.Listen` was called once, the listener is nil, handler and server are
untouched, no channel was made, no goroutine started, no `select` waited in or decided, and
`Shutdown` was not called. The `return` needs nothing else to run. -/
theorem StartListen_bind_error (recv0 : HttpMessageReceiver) (ctx : Context)
    (handler : UserHandler) (sched : List Action) (s : State) (e : GoError)
    (hrun : StartListen recv0 ctx handler sched = some s)
    (hbind : Action.listenErr e ∈ sched) :
    (s.pc = .ret (some e) ∨ s.pc = .returned (some e)) ∧
    s.listenCalls = [listenAddress recv0.port] ∧ s.recv.listener = none ∧
    s.recv.handler = recv0.handler ∧ s.recv.server = recv0.server ∧
    s.errChan = none ∧ s.goroutine = .notStarted ∧ s.parked = false ∧ s.branches = [] ∧
    s.shutdownCalls = [] ∧ s.received = [] ∧
    (s.pc = .ret (some e) →
      (step ctx handler s .ret).map (fun t => t.pc) = some (.returned (some e))) := by
  have hi := StartListen_Inv hrun
  obtain ⟨hpc, hg⟩ := bind_error_exec sched (State.init recv0) s rfl rfl hrun hbind
  refine ⟨hpc, ?_⟩
  have hf : finishedOk recv0 handler ctx s (some e) := by
    rcases hpc with h | h <;> simpa only [Inv, h] using hi.2
  have hstep : s.pc = .ret (some e) →
      (step ctx handler s .ret).map (fun t => t.pc) = some (.returned (some e)) := by
    intro h
    simp [step, h]
  rcases hf with h | h | h
  · obtain ⟨h1, ⟨-, h3, -, h5, h6, -⟩, -, h8, h9, h10⟩ := h
    refine ⟨h9, ?_, ?_, ?_, h10, hg, h5, h1, h6, h3, hstep⟩ <;> rw [h8]
  · obtain ⟨-, -, -, -, -, -, e', he, -⟩ := h
    rw [hg] at he
    exact absurd he (by simp)
  · rw [hg] at h
    exact absurd h.2.2.2.2.2.2.1 (by simp)

/-- Claim C7 on a run whose context is cancelled before `net.Listen` fails: the coordinator
stands at `return err`, the next step returns the error of `net.Listen`, and nothing else
has happened. -/
theorem StartListen_bind_error_witness :
    StartListen exampleRecv .background exampleHandler [.cancel, .listenErr errAddrInUse]
      = some bindFailPending ∧
    StartListen exampleRecv .background exampleHandler bindFailSchedule = some bindFailFinal ∧
    (step .background exampleHandler bindFailPending .ret).map (fun t => t.pc)
      = some (.returned (some errAddrInUse)) ∧
    bindFailFinal.pc = .returned (some errAddrInUse) ∧
    bindFailFinal.listenCalls = [":8080"] ∧
    bindFailFinal.recv.listener = none ∧
    bindFailFinal.recv.handler = none ∧
    bindFailFinal.recv.server = none ∧
    bindFailFinal.errChan = none ∧ bindFailFinal.goroutine = .notStarted ∧
    bindFailFinal.parked = false ∧ bindFailFinal.branches = [] ∧
    bindFailFinal.shutdownCalls = [] ∧ bindFailFinal.received = [] :=
  have pending := StartListen_bind_error exampleRecv .background exampleHandler
    [.cancel, .listenErr errAddrInUse] bindFailPending errAddrInUse rfl (by decide)
  have final := StartListen_bind_error exampleRecv .background exampleHandler bindFailSchedule
    bindFailFinal errAddrInUse rfl (by decide)
  ⟨rfl, rfl, pending.2.2.2.2.2.2.2.2.2.2.2 rfl, rfl, final.2.1, final.2.2.1, final.2.2.2.1,
    final.2.2.2.2.1, final.2.2.2.2.2.1, final.2.2.2.2.2.2.1, final.2.2.2.2.2.2.2.1,
    final.2.2.2.2.2.2.2.2.1, final.2.2.2.2.2.2.2.2.2.1, final.2.2.2.2.2.2.2.2.2.2.1⟩

/-- Claim C8. Whenever the goroutine was started and the coordinator is at a `return` or has
returned, the goroutine has exited and the coordinator has received from `errChan` exactly
once, the value being the result of `Serve`; the buffer is empty. This holds on the
cancellation case as on the `errChan` case. -/
theorem StartListen_drains_errChan (recv0 : HttpMessageReceiver) (ctx : Context)
    (handler : UserHandler) (sched : List Action) (s : State) (r : Err)
    (hrun : StartListen recv0 ctx handler sched = some s)
    (hserve : s.goroutine ≠ .notStarted)
    (hret : s.pc = .ret r ∨ s.pc = .returned r) :
    ∃ e, s.goroutine = .exited e ∧ s.received = [e] ∧ s.errChan = some [] ∧
      (s.branches = [.ctxDone] ∨ s.branches = [.errChan]) := by
  have hi := StartListen_Inv hrun
  have hf : finishedOk recv0 handler ctx s r := by
    rcases hret with h | h <;> simpa only [Inv, h] using hi.2
  rcases hf with h | h | h
  · exact absurd h.2.1.1 hserve
  · obtain ⟨hb, -, -, -, -, -, e, h1, h2, h3, -⟩ := h
    exact ⟨e, h1, h2, h3, Or.inl hb⟩
  · obtain ⟨hb, -, -, -, -, -, h1, h2, h3⟩ := h
    exact ⟨r, h1, h2, h3, Or.inr hb⟩

/-- Claim C8 on a cancelled run, where the coordinator drains `ErrServerClosed` and returns
nil, and on a run where `Serve` fails. -/
theorem StartListen_drains_errChan_witness :
    ((cancelFinal DefaultShutdownTimeout).pc = .returned none ∧
      (cancelFinal DefaultShutdownTimeout).received = [some ErrServerClosed] ∧
      (cancelFinal DefaultShutdownTimeout).errChan = some []) ∧
    (serveFailFinal.pc = .returned (some errAccept) ∧
      serveFailFinal.received = [some errAccept] ∧ serveFailFinal.errChan = some []) := by
  obtain ⟨e1, g1, r1, c1, -⟩ :=
    StartListen_drains_errChan exampleRecv .background exampleHandler cancelSchedule
      (cancelFinal DefaultShutdownTimeout) none rfl (by decide) (Or.inr rfl)
  obtain ⟨e2, g2, r2, c2, -⟩ :=
    StartListen_drains_errChan exampleRecv .background exampleHandler serveFailSchedule
      serveFailFinal (some errAccept) rfl (by decide) (Or.inr rfl)
  cases Goroutine.exited.inj g1
  cases Goroutine.exited.inj g2
  exact ⟨⟨rfl, r1, c1⟩, ⟨rfl, r2, c2⟩⟩

/-- Claim C9. When the shutdown timeout of the caller's context resolves to `d`, `Shutdown` is
called at most once, only on the cancellation case, and with the context
`WithTimeout(Background(), d)`: derived from the background context, not from the caller's,
and carrying this timeout alone. Once the cancellation case has gone past that statement, the
call has been made. -/
theorem StartListen_shutdown_context (recv0 : HttpMessageReceiver) (ctx : Context)
    (handler : UserHandler) (sched : List Action) (s : State) (d : Duration)
    (hrun : StartListen recv0 ctx handler sched = some s)
    (hd : getShutdownTimeout ctx = some d) :
    (s.shutdownCalls = [] ∨
      (s.shutdownCalls = [.withTimeout .background d] ∧ s.branches = [.ctxDone] ∧
        s.ctxDone = true)) ∧
    (s.branches = [.ctxDone] → s.pc ≠ .shutdown →
      s.shutdownCalls = [.withTimeout .background d]) := by
  have hi := StartListen_Inv hrun
  obtain ⟨recv, pc, ctxDone, listenCalls, errChan, goroutine, shutdownCalls,
    shutdownResult, received, branches, signals, parked⟩ := s
  have key : ∀ d', getShutdownTimeout ctx = some d' → d' = d := fun d' h' => by
    rw [hd] at h'
    exact (Option.some.inj h').symm
  cases pc <;> simp only [Inv, noServe, waitingOk, finishedOk] at hi <;>
    simp only [ne_eq, reduceCtorEq, not_false_eq_true, not_true_eq_false, forall_const,
      false_implies, implies_true, and_true]
  case panicked =>
    rw [hd] at hi
    exact absurd hi.2.2.2.2 (by simp)
  case inShutdown =>
    obtain ⟨-, hw, -, d', h1, h2⟩ := hi
    cases key d' h1
    exact ⟨Or.inr ⟨h2, hw.2.2.2.1, hw.2.2.2.2.1⟩, fun _ => h2⟩
  case drain =>
    obtain ⟨-, hw, -, d', h1, h2⟩ := hi
    cases key d' h1
    exact ⟨Or.inr ⟨h2, hw.2.2.2.1, hw.2.2.2.2.1⟩, fun _ => h2⟩
  case ret =>
    obtain ⟨-, h | h | h⟩ := hi
    · refine ⟨Or.inl h.2.1.2.2.2.2.1, fun hb => ?_⟩
      rw [h.1] at hb
      exact absurd hb (by simp)
    · obtain ⟨hb, -, hc, -, ⟨d', h1, h2⟩, -⟩ := h
      cases key d' h1
      exact ⟨Or.inr ⟨h2, hb, hc⟩, fun _ => h2⟩
    · refine ⟨Or.inl h.2.2.2.2.1, fun hb => ?_⟩
      rw [h.1] at hb
      exact absurd hb (by simp)
  case returned =>
    obtain ⟨-, h | h | h⟩ := hi
    · refine ⟨Or.inl h.2.1.2.2.2.2.1, fun hb => ?_⟩
      rw [h.1] at hb
      exact absurd hb (by simp)
    · obtain ⟨hb, -, hc, -, ⟨d', h1, h2⟩, -⟩ := h
      cases key d' h1
      exact ⟨Or.inr ⟨h2, hb, hc⟩, fun _ => h2⟩
    · refine ⟨Or.inl h.2.2.2.2.1, fun hb => ?_⟩
      rw [h.1] at hb
      exact absurd hb (by simp)
  case shutdown => exact Or.inl hi.2.2.1
  case select =>
    refine ⟨Or.inl hi.2.2.2.2.2.2.1, fun hb => ?_⟩
    rw [hi.2.2.2.2.1] at hb
    exact absurd hb (by simp)
  case blocked =>
    refine ⟨Or.inl hi.2.2.2.2.2.2.1, fun hb => ?_⟩
    rw [hi.2.2.2.2.1] at hb
    exact absurd hb (by simp)
  all_goals
    refine ⟨Or.inl hi.2.1.2.2.2.2.1, fun hb => ?_⟩
    rw [hi.2.1.2.2.1] at hb
    exact absurd hb (by simp)

/-- Claim C9 on a cancelled run: with 5 seconds attached to a cancellable context `Shutdown`
gets `WithTimeout(Background(), 5s)`, with nothing attached it gets one minute. -/
theorem StartListen_shutdown_context_witness :
    (cancelFinal (5 * Second)).shutdownCalls = [.withTimeout .background (5 * Second)] ∧
    (cancelFinal DefaultShutdownTimeout).shutdownCalls
      = [.withTimeout .background (60 * 10 ^ 9)] :=
  ⟨(StartListen_shutdown_context exampleRecv
      (WithShutdownTimeout (.withCancel .background) (5 * Second)) exampleHandler cancelSchedule
      (cancelFinal (5 * Second)) (5 * Second) rfl rfl).2 rfl (by decide),
   (StartListen_shutdown_context exampleRecv (.withCancel .background) exampleHandler
      cancelSchedule (cancelFinal DefaultShutdownTimeout) DefaultShutdownTimeout rfl rfl).2 rfl
      (by decide)⟩

/-- Claim C10 as stated fails: in `raceCancelFirst` the context is cancelled before the result
of `Serve` is sent, both signals are present when the `select` is evaluated, and the `errChan`
case is taken: `StartListen` returns the error of `Serve` and never calls `Shutdown`. -/
theorem StartListen_cancel_first_errChan_taken :
    StartListen exampleRecv .background exampleHandler raceCancelFirst
      = some raceCancelFirstFinal ∧
    raceCancelFirstFinal.signals = [.ctxDone, .errChan] ∧
    raceCancelFirstFinal.branches = [.errChan] ∧
    raceCancelFirstFinal.pc = .returned (some errAccept) ∧
    raceCancelFirstFinal.shutdownCalls = [] :=
  ⟨rfl, rfl, rfl, rfl, rfl⟩

/-- Claim C10, amended. At most one case of the `select` is taken, and only on a signal that
has occurred; a coordinator that had blocked in the `select` takes the case of the first
signal. -/
theorem StartListen_branch_signal (recv0 : HttpMessageReceiver) (ctx : Context)
    (handler : UserHandler) (sched : List Action) (s : State) (b : Branch)
    (hrun : StartListen recv0 ctx handler sched = some s)
    (hb : b ∈ s.branches) :
    s.branches = [b] ∧ b ∈ s.signals ∧ (s.parked = true → s.signals.head? = some b) := by
  have hi := StartListen_Inv hrun
  obtain ⟨recv, pc, ctxDone, listenCalls, errChan, goroutine, shutdownCalls,
    shutdownResult, received, branches, signals, parked⟩ := s
  simp only at hb ⊢
  have hsig : ctxDone = true → Branch.ctxDone ∈ signals := hi.1.mp
  have hwait : waitingOk recv0 handler
      ⟨recv, pc, ctxDone, listenCalls, errChan, goroutine, shutdownCalls,
        shutdownResult, received, branches, signals, parked⟩ →
      branches = [b] ∧ b ∈ signals ∧ (parked = true → signals.head? = some b) := by
    rintro ⟨-, -, -, h4, h5, h6⟩
    simp only at h4 h5 h6
    subst h4
    cases List.mem_singleton.mp hb
    exact ⟨rfl, hsig h5, h6⟩
  have hfin : ∀ r, finishedOk recv0 handler ctx
      ⟨recv, pc, ctxDone, listenCalls, errChan, goroutine, shutdownCalls,
        shutdownResult, received, branches, signals, parked⟩ r →
      branches = [b] ∧ b ∈ signals ∧ (parked = true → signals.head? = some b) := by
    rintro r (hf | hf | hf)
    · have := hf.1
      simp only at this
      subst this
      simp at hb
    · obtain ⟨h1, -, h3, h4, -⟩ := hf
      simp only at h1 h3 h4
      subst h1
      cases List.mem_singleton.mp hb
      exact ⟨rfl, hsig h3, h4⟩
    · obtain ⟨h1, -, h3, h4, -⟩ := hf
      simp only at h1 h3 h4
      subst h1
      cases List.mem_singleton.mp hb
      exact ⟨rfl, h4, h3⟩
  have hnone : branches = [] →
      branches = [b] ∧ b ∈ signals ∧ (parked = true → signals.head? = some b) := by
    rintro rfl
    simp at hb
  cases pc <;> simp only [Inv, noServe] at hi
  case shutdown => exact hwait hi.2.1
  case panicked => exact hwait hi.2.1
  case inShutdown => exact hwait hi.2.1
  case drain => exact hwait hi.2.1
  case ret r => exact hfin r hi.2
  case returned r => exact hfin r hi.2
  case select => exact hnone hi.2.2.2.2.1
  case blocked => exact hnone hi.2.2.2.2.1
  all_goals exact hnone hi.2.1.2.2.1

/-- Claim C10, amended, on two runs. In `cancelSchedule` the coordinator blocks and takes the
case of the first signal, the cancellation. In `raceServeFirst` both signals are present when
the `select` is evaluated and the cancellation case is taken although the result of `Serve`
came first. -/
theorem StartListen_branch_signal_witness :
    ((cancelFinal DefaultShutdownTimeout).parked = true ∧
      (cancelFinal DefaultShutdownTimeout).branches = [.ctxDone] ∧
      (cancelFinal DefaultShutdownTimeout).signals.head? = some .ctxDone) ∧
    (StartListen exampleRecv .background exampleHandler raceServeFirst
        = some raceServeFirstFinal ∧
      raceServeFirstFinal.signals = [.errChan, .ctxDone] ∧
      raceServeFirstFinal.branches = [.ctxDone] ∧
      Branch.ctxDone ∈ raceServeFirstFinal.signals) :=
  have blocked := StartListen_branch_signal exampleRecv .background exampleHandler
    cancelSchedule (cancelFinal DefaultShutdownTimeout) .ctxDone rfl (by decide)
  have race := StartListen_branch_signal exampleRecv .background exampleHandler raceServeFirst
    raceServeFirstFinal .ctxDone rfl (by decide)
  ⟨⟨rfl, blocked.1, blocked.2.2 rfl⟩, rfl, rfl, race.1, race.2.1⟩

end Kncloudevents
